import Mathlib

/-!
Shallow embedding of `CDC_healthdata_political_correlations.py`, a one-shot
pandas/geopandas pipeline that joins county-level 2016 election results with
CDC chronic-disease survey rows at the state level, computes a Pearson
correlation per survey question against Republican vote share, writes a
ranked text report and selects one entry to plot.

Machine floats of the script are modelled as exact rationals (`ℚ`) for data
values and vote counts, and as reals (`ℝ`) for the derived correlation
coefficients; the float `NaN` produced by failed numeric coercion, missing
lookups and undefined correlations is modelled as `Option.none`.
-/

namespace CDC

/-! ## Generic helpers shared by several pipeline stages -/

/-- First-occurrence deduplication: the order-preserving distinct values of a
list, as returned by `pandas.Series.unique`. -/
def uniqueFirst [DecidableEq α] : List α → List α
  | [] => []
  | a :: l => a :: ((uniqueFirst l).filter (fun x => x ≠ a))

/-- Insert into a list in front of the first element `b` with `le x b`. -/
def insertLe (le : α → α → Bool) (x : α) : List α → List α
  | [] => [x]
  | b :: t => if le x b then x :: b :: t else b :: insertLe le x t

/-- Insertion sort by a boolean `le`; used for the sorted group keys of
`DataFrame.groupby` and the sorted value list of `Series.mode`. -/
def sortLe (le : α → α → Bool) (l : List α) : List α :=
  l.foldr (insertLe le) []

/-- Lexicographic code-point order on character lists. -/
def listLtB : List Char → List Char → Bool
  | _, [] => false
  | [], _ :: _ => true
  | a :: as, b :: bs =>
    if a.toNat < b.toNat then true
    else if b.toNat < a.toNat then false
    else listLtB as bs

/-- Python's `<` on strings: lexicographic by code point. -/
def strLtB (a b : String) : Bool := listLtB a.data b.data

/-- Boolean string order backing pandas' sorted outputs. -/
def strLeB (a b : String) : Bool := !(strLtB b a)

/-- Python `dict` built by repeated assignment from an association list
(last binding wins) and read with `d[k]`, `none` meaning `KeyError`. -/
def dictGet (d : List (String × β)) (k : String) : Option β :=
  d.foldl (fun acc p => if p.1 = k then some p.2 else acc) none

/-! ## Cleaner: column pruning of the raw health table

The raw health table is modelled as its list of columns, each a name paired
with the column's cell values (a cell is `none` for `NaN`). -/

/-- One raw health-table column: its label and its cells. -/
abbrev RawTable : Type := List (String × List (Option String))

/-- The fixed denylist of known-uninformative columns
(`useless_cols` initial value in the script). -/
def denylist : List String :=
  ["DataValueFootnoteSymbol", "TopicID", "QuestionID", "DataValueTypeID",
   "StratificationCategoryID1", "StratificationID1"]

/-- `useless_cols` after the examination loop: the denylist followed by every
column whose distinct-value count (`len(healthdata[column].unique())`,
`NaN` counting as one value) is below 3. -/
def uselessCols (t : RawTable) : List String :=
  denylist ++ t.filterMap (fun p => if p.2.dedup.length < 3 then some p.1 else none)

/-- `DataFrame.drop(labels, axis=1)`: removes the named columns, raising
`KeyError` when any requested label is absent from the table. -/
def dropCols (t : RawTable) (labels : List String) : Except String RawTable :=
  if labels.all (fun l => (t.map (·.1)).contains l) then
    .ok (t.filter (fun p => !(labels.contains p.1)))
  else
    .error "KeyError"

/-- The whole cleaning step: `healthdata.drop(useless_cols, axis=1)`. -/
def cleanTable (t : RawTable) : Except String RawTable :=
  dropCols t (uselessCols t)

/-! ## Cleaner: election aggregation -/

/-- One county row of the election CSV (all numeric columns as exact
rationals). -/
structure CountyRow : Type where
  state_abbr : String
  combined_fips : ℚ
  total_votes : ℚ
  votes_dem : ℚ
  votes_gop : ℚ
  per_dem : ℚ
  per_gop : ℚ
deriving DecidableEq

/-- One summed group of `votedata.groupby(['state_abbr'], as_index=False).sum()`:
every numeric column summed over the counties of one state. -/
structure SummedRow : Type where
  state_abbr : String
  combined_fips : ℚ
  total_votes : ℚ
  votes_dem : ℚ
  votes_gop : ℚ
  per_dem : ℚ
  per_gop : ℚ
deriving DecidableEq

/-- One state row after percentage recomputation. -/
structure StateAgg : Type where
  state_abbr : String
  total_votes : ℚ
  votes_dem : ℚ
  votes_gop : ℚ
  per_dem : ℚ
  per_gop : ℚ
deriving DecidableEq

/-- The sorted distinct group keys of `groupby('state_abbr')`. -/
def sortedKeys (l : List CountyRow) : List String :=
  sortLe strLeB (uniqueFirst (l.map (·.state_abbr)))

/-- `votedata.groupby(['state_abbr'], as_index=False).sum()`: one row per
distinct state abbreviation (keys sorted), each numeric column summed. -/
def groupSum (l : List CountyRow) : List SummedRow :=
  (sortedKeys l).map fun s =>
    let g := l.filter (fun r => r.state_abbr == s)
    { state_abbr := s
      combined_fips := (g.map (·.combined_fips)).sum
      total_votes := (g.map (·.total_votes)).sum
      votes_dem := (g.map (·.votes_dem)).sum
      votes_gop := (g.map (·.votes_gop)).sum
      per_dem := (g.map (·.per_dem)).sum
      per_gop := (g.map (·.per_gop)).sum }

/-- Dropping `per_dem`, `per_gop`, `combined_fips` from the grouped frame and
recomputing `per_dem = votes_dem / total_votes * 100` and
`per_gop = votes_gop / total_votes * 100` from the summed counts. -/
def recompute (g : List SummedRow) : List StateAgg :=
  g.map fun r =>
    { state_abbr := r.state_abbr
      total_votes := r.total_votes
      votes_dem := r.votes_dem
      votes_gop := r.votes_gop
      per_dem := r.votes_dem / r.total_votes * 100
      per_gop := r.votes_gop / r.total_votes * 100 }

/-- The complete election-aggregation stage. -/
def aggregateVotes (l : List CountyRow) : List StateAgg :=
  recompute (groupSum l)

/-- `voteDict`: state abbreviation to `(per_dem, per_gop)` pairs, built from
the aggregated table. -/
def buildVoteDict (g : List StateAgg) : List (String × ℚ × ℚ) :=
  g.map fun a => (a.state_abbr, (a.per_dem, a.per_gop))

/-! ## Joiner -/

/-- One cleaned health row, with the columns the analysis reads.
`DataValue` is already numerically coerced (`none` for `NaN`). -/
structure HRow : Type where
  LocationAbbr : String
  Question : String
  Stratification1 : String
  DataValue : Option ℚ
  DataValueUnit : Option String
deriving DecidableEq

/-- A health row after the vote join: `per_dem` / `per_gop` attached,
`none` when the abbreviation was not a key of `voteDict`. -/
structure VRow extends HRow where
  per_dem : Option ℚ
  per_gop : Option ℚ
deriving DecidableEq

/-- A health row after the geometry join; `G` is the polygon type of the
shapefile, carried but never inspected by the pipeline. -/
structure JRow (G : Type) extends VRow where
  geometry : Option G

/-- The vote join: for every health row in order, look its abbreviation up in
`voteDict`, attaching `none` on `KeyError`. -/
def addVotes (rows : List HRow) (vd : List (String × ℚ × ℚ)) : List VRow :=
  rows.map fun r =>
    { toHRow := r
      per_dem := (dictGet vd r.LocationAbbr).map Prod.fst
      per_gop := (dictGet vd r.LocationAbbr).map Prod.snd }

/-- The geometry join: identical pattern with `stateDict`. -/
def addGeometry (rows : List VRow) (sd : List (String × G)) : List (JRow G) :=
  rows.map fun r => { toVRow := r, geometry := dictGet sd r.LocationAbbr }

/-- Both joins in pipeline order. -/
def joinStage (rows : List HRow) (vd : List (String × ℚ × ℚ))
    (sd : List (String × G)) : List (JRow G) :=
  addGeometry (addVotes rows vd) sd

/-! ## Analyzer: correlation per question -/

/-- Pearson product-moment correlation of a list of complete observation
pairs, via the sum identity
`r = (n·Σxy − Σx·Σy) / sqrt((n·Σx² − (Σx)²)·(n·Σy² − (Σy)²))`;
`none` (`NaN`) when the denominator vanishes, which covers fewer than two
pairs and zero variance of either coordinate. -/
noncomputable def pearsonOpt (ps : List (ℚ × ℚ)) : Option ℝ :=
  let n : ℚ := ps.length
  let sx := (ps.map Prod.fst).sum
  let sy := (ps.map Prod.snd).sum
  let sxx := (ps.map fun p => p.1 * p.1).sum
  let syy := (ps.map fun p => p.2 * p.2).sum
  let sxy := (ps.map fun p => p.1 * p.2).sum
  let cxx := n * sxx - sx * sx
  let cyy := n * syy - sy * sy
  let cxy := n * sxy - sx * sy
  if cxx * cyy = 0 then none
  else some ((cxy : ℝ) / Real.sqrt ((cxx : ℝ) * (cyy : ℝ)))

/-- The pairwise-complete observations of two aligned optional columns:
pairs where either side is `NaN` are excluded. -/
def completeOptPairs (xs : List (Option ℚ × Option ℚ)) : List (ℚ × ℚ) :=
  xs.filterMap fun p =>
    match p with
    | (some a, some b) => some (a, b)
    | _ => none

/-- `Series.corr` (Pearson, default `min_periods=1`): drop pairs with a
missing side, then correlate; `NaN` (`none`) without at least two complete
pairs of nonzero variance. -/
noncomputable def seriesCorr (xs : List (Option ℚ × Option ℚ)) : Option ℝ :=
  pearsonOpt (completeOptPairs xs)

/-- `Series.mode()`: the most frequent non-`NaN` values, sorted; input is the
column with `NaN` cells already removed. -/
def modeList (l : List String) : List String :=
  let uniq := uniqueFirst l
  let m := (uniq.map fun v => l.count v).foldr Nat.max 0
  sortLe strLeB (uniq.filter fun v => l.count v == m)

/-- One recorded entry of `CORRELATIONS`: question text, unit of measure,
coefficient, and the retained filtered subset used to compute it. -/
structure CorrResult (G : Type) : Type where
  question : String
  units : String
  coef : Option ℝ
  sub : List (JRow G)

/-- One iteration of the analysis loop: filter to the question, then to
`Stratification1 = "Overall"`, correlate `DataValue` with `per_gop`, take
the unit mode, and record a result exactly when the mode is nonempty. -/
noncomputable def questionResult (rows : List (JRow G)) (q : String) :
    Option (CorrResult G) :=
  let sub := (rows.filter fun r => r.Question == q).filter
    fun r => r.Stratification1 == "Overall"
  match modeList (sub.filterMap fun r => r.DataValueUnit) with
  | u :: _ => some ⟨q, u, seriesCorr (sub.map fun r => (r.DataValue, r.per_gop)), sub⟩
  | [] => none

/-- The per-question analysis loop, over every distinct question in order of
first appearance. -/
noncomputable def processQuestions (rows : List (JRow G)) : List (CorrResult G) :=
  (uniqueFirst (rows.map (·.Question))).filterMap (questionResult rows)

/-- Specification-side restatement: the Pearson coefficient between
`DataValue` and `per_gop` over exactly the rows whose `Question` equals `q`
and whose `Stratification1` is `"Overall"`, using only rows where both
values are present. -/
noncomputable def pearsonOfQuestion (rows : List (JRow G)) (q : String) : Option ℝ :=
  pearsonOpt
    ((rows.filter fun r => r.Question == q && r.Stratification1 == "Overall").filterMap
      fun r =>
        match r.DataValue, r.per_gop with
        | some x, some y => some (x, y)
        | _, _ => none)

/-! ## `list.sort(key=...)` with possibly-NaN float keys

CPython's sort on fewer than 64 elements detects one initial ascending or
strictly descending run (reversing the latter) and then inserts each
remaining element into the sorted prefix at the position found by binary
search, all through the single comparison `key(a) < key(b)`; a comparison
against `NaN` is always false. -/

/-- The strict order on coefficient keys: `NaN` (`none`) compares false
against everything. -/
def optLt : Option ℝ → Option ℝ → Prop
  | some a, some b => a < b
  | _, _ => False

noncomputable instance optLt.instDecidable : DecidableRel optLt := fun a b =>
  match a, b with
  | some x, some y => inferInstanceAs (Decidable (x < y))
  | some _, none => isFalse (fun h => h)
  | none, some _ => isFalse (fun h => h)
  | none, none => isFalse (fun h => h)

/-- Extend an ascending run: keep taking elements while the next one is not
below the current last; returns the run continuation and the rest. -/
def takeAscRun (lt : α → α → Prop) [DecidableRel lt] (a : α) :
    List α → List α × List α
  | [] => ([a], [])
  | b :: rest =>
    if lt b a then ([a], b :: rest)
    else
      let p := takeAscRun lt b rest
      (a :: p.1, p.2)

/-- Extend a strictly descending run. -/
def takeDescRun (lt : α → α → Prop) [DecidableRel lt] (a : α) :
    List α → List α × List α
  | [] => ([a], [])
  | b :: rest =>
    if lt b a then
      let p := takeDescRun lt b rest
      (a :: p.1, p.2)
    else ([a], b :: rest)

/-- The loop body of CPython's binary search, with an explicit iteration
bound so the definition unfolds by structural recursion; `fuel = r - l`
always lets the loop run to completion (`binPos_fuel_irrel`). -/
def binPosF (lt : α → α → Prop) [DecidableRel lt] (x : α) (pre : List α) :
    ℕ → ℕ → ℕ → ℕ
  | 0, l, _ => l
  | fuel + 1, l, r =>
    if l < r then
      let mid := l + (r - l) / 2
      if lt x (pre.getD mid x) then binPosF lt x pre fuel l mid
      else binPosF lt x pre fuel (mid + 1) r
    else l

/-- CPython's binary-search insertion point: rightmost position of `x` in the
sorted prefix `pre`, searching between `l` and `r`. -/
def binPos (lt : α → α → Prop) [DecidableRel lt] (x : α) (pre : List α)
    (l r : ℕ) : ℕ :=
  binPosF lt x pre (r - l) l r

/-- Insertion at a position, as CPython's `binarysort` shifts the tail. -/
def insertAt (pre : List α) (p : ℕ) (x : α) : List α :=
  pre.take p ++ x :: pre.drop p

/-- Binary-insert every remaining element, in order, into the sorted
prefix. -/
def binInsertAll (lt : α → α → Prop) [DecidableRel lt] (pre : List α) :
    List α → List α
  | [] => pre
  | x :: xs => binInsertAll lt (insertAt pre (binPos lt x pre 0 pre.length) x) xs

/-- `list.sort` for fewer than 64 elements: one detected run, then binary
insertion of the remainder. -/
def pySort (lt : α → α → Prop) [DecidableRel lt] : List α → List α
  | [] => []
  | [a] => [a]
  | a :: b :: rest =>
    if lt b a then
      let p := takeDescRun lt b rest
      binInsertAll lt (a :: p.1).reverse p.2
    else
      let p := takeAscRun lt b rest
      binInsertAll lt (a :: p.1) p.2

/-- `CORRELATIONS.sort(key=lambda x: x[2])`. -/
noncomputable def sortResults (l : List (CorrResult G)) : List (CorrResult G) :=
  pySort (fun a b => optLt a.coef b.coef) l

/-- The comparison `lt` behaves like a strict linear order on the elements
satisfying `S`: asymmetry, negative transitivity, and compatibility of the
strict and non-strict forms.  Holds for float keys exactly when no key is
`NaN`. -/
def SortReady (lt : α → α → Prop) (S : α → Prop) : Prop :=
  (∀ a b, S a → S b → lt a b → ¬ lt b a) ∧
  (∀ a b c, S a → S b → S c → ¬ lt b a → ¬ lt c b → ¬ lt c a) ∧
  (∀ a b c, S a → S b → S c → lt a b → ¬ lt c b → lt a c)

/-! ## Reporter -/

/-- Python `"{:_<200}".format`: left-justify in a minimum field width,
padding short strings on the right with the fill character; longer strings
pass through unchanged. -/
def pyFormatPadLeft (w : ℕ) (fill : Char) (s : String) : String :=
  if s.length < w then s ++ String.mk (List.replicate (w - s.length) fill) else s

/-- The coefficient text of a report line.  The script branches on
`type(entry[2]) == float`: `Series.corr` returns a `numpy.float64` whenever
at least one complete pair existed, and `numpy.float64` is a proper subclass
of `float`, so the comparison is `False` for it — a computed coefficient is
written unrounded through the `else` branch as `str(entry[2])`.  The
`round` branch fires only for the plain-`float` `NaN` early return, and
both branches print `"nan"` for an undefined coefficient.  Rendering a
double with `str` (its shortest round-tripping decimal) is binary
floating-point behaviour outside this embedding, so the renderer for
defined values is the parameter `fstr`. -/
def coefText (fstr : ℝ → String) : Option ℝ → String
  | none => "nan"
  | some x => fstr x

/-- One report line: the question and unit through `"{:_<200}"`, then the
coefficient text (under the float renderer `fstr`), then a newline. -/
def reportLine (fstr : ℝ → String) (r : CorrResult G) : String :=
  pyFormatPadLeft 200 '_' (r.question ++ " (" ++ r.units ++ ")") ++
    coefText fstr r.coef ++ "\n"

/-- The fixed first line written to `./correlations_output`. -/
def reportHeader : String :=
  "Correlation coeffecients between CDC health data questions and percentage of Republican votes on a state-by-state basis\n\n"

/-- The full report text: header, then one line per sorted result. -/
def reportOf (fstr : ℝ → String) (sorted : List (CorrResult G)) : String :=
  reportHeader ++ String.join (sorted.map (reportLine fstr))

/-! ## Plot selection -/

/-- What the plotting calls fix: the data plotted, the colouring column, the
figure title, the axis bounds and the colour map. -/
structure PlotSpec (G : Type) : Type where
  data : List (JRow G)
  column : String
  title : String
  xlim : ℚ × ℚ
  ylim : ℚ × ℚ
  cmap : String

/-- `entry = CORRELATIONS[0]` and the plotting calls: an `IndexError` on an
empty result list, otherwise the first sorted entry's retained subset,
coloured by `DataValue`, titled with its question and unit. -/
def plotOf (sorted : List (CorrResult G)) : Except String (PlotSpec G) :=
  match sorted with
  | [] => .error "IndexError: list index out of range"
  | e :: _ =>
    .ok
      { data := e.sub
        column := "DataValue"
        title := e.question ++ " (" ++ e.units ++ ")"
        xlim := (-180, -60)
        ylim := (20, 75)
        cmap := "Purples" }

/-- The tail of the script in execution order: sort the results, write the
report, then build the plot; the report text exists whether or not the plot
selection succeeds. -/
noncomputable def analyzeTail (fstr : ℝ → String)
    (results : List (CorrResult G)) : String × Except String (PlotSpec G) :=
  let sorted := sortResults results
  (reportOf fstr sorted, plotOf sorted)

/-- A stand-in float renderer for closed witness and counterexample
statements; the layout and ordering facts proved here hold for every
renderer. -/
def fstr0 : ℝ → String := fun _ => "0.0"

/-! ## Concrete instances used by witnesses and counterexamples -/

/-- A raw table in which all six denylist columns have three distinct values
each, plus one retained column: shows the denylist is dropped regardless of
distinct-value counts. -/
def tableCex : RawTable :=
  [("DataValueFootnoteSymbol", [some "a", some "b", some "c"]),
   ("TopicID", [some "t1", some "t2", some "t3"]),
   ("QuestionID", [some "q1", some "q2", some "q3"]),
   ("DataValueTypeID", [some "d1", some "d2", some "d3"]),
   ("StratificationCategoryID1", [some "s1", some "s2", some "s3"]),
   ("StratificationID1", [some "i1", some "i2", some "i3"]),
   ("Question", [some "A", some "B", some "C"])]

/-- A raw table with a near-constant extra column, for the pruning witness. -/
def tableW : RawTable :=
  [("DataValueFootnoteSymbol", [some "a", some "b", some "c"]),
   ("TopicID", [some "t1", some "t2", some "t3"]),
   ("QuestionID", [some "q1", some "q2", some "q3"]),
   ("DataValueTypeID", [some "d1", some "d2", some "d3"]),
   ("StratificationCategoryID1", [some "s1", some "s2", some "s3"]),
   ("StratificationID1", [some "i1", some "i2", some "i3"]),
   ("Question", [some "A", some "B", some "C"]),
   ("LowInfo", [some "z", some "z", none])]

/-- A raw table missing the denylist column `TopicID`. -/
def tableNoTopic : RawTable :=
  [("Question", [some "A", some "B", some "C"])]

/-- The spec's two-state election scenario, state `A` split over two county
rows (precomputed county percentages deliberately wrong, they are dropped). -/
def countiesW : List CountyRow :=
  [⟨"B", 3, 100, 30, 70, 1, 2⟩, ⟨"A", 1, 60, 35, 25, 3, 4⟩, ⟨"A", 2, 40, 25, 15, 5, 6⟩]

/-- Health rows for the join witness: two known states and one territory
absent from both lookup tables. -/
def hrowsW : List HRow :=
  [⟨"A", "Q", "Overall", some 10, some "%"⟩,
   ⟨"B", "Q", "Overall", some 30, some "%"⟩,
   ⟨"GU", "Q", "Overall", some 20, some "%"⟩]

/-- Vote dictionary for the join witness. -/
def vdW : List (String × ℚ × ℚ) := [("A", (60, 40)), ("B", (30, 70))]

/-- Geometry dictionary for the join witness (polygons as numbers). -/
def sdW : List (String × ℕ) := [("A", 17), ("B", 23)]

/-- Result with coefficient `0.2` (sort counterexample input). -/
noncomputable def R02 : CorrResult Unit := ⟨"Q02", "u", some (1 / 5 : ℝ), []⟩

/-- Result with an undefined (`NaN`) coefficient. -/
noncomputable def RN : CorrResult Unit := ⟨"QN", "u", none, []⟩

/-- Result with coefficient `-0.5`. -/
noncomputable def Rm05 : CorrResult Unit := ⟨"Qm05", "u", some (-(1 / 2) : ℝ), []⟩

/-- All-finite results for the amended-sort witness. -/
noncomputable def RW1 : CorrResult Unit := ⟨"W1", "u", some (1 / 5 : ℝ), []⟩

noncomputable def RW2 : CorrResult Unit := ⟨"W2", "u", some (-(1 / 2) : ℝ), []⟩

/-- Plot-selection counterexample inputs: same coefficient pattern. -/
noncomputable def P02 : CorrResult Unit := ⟨"P02", "pu", some (1 / 5 : ℝ), []⟩

noncomputable def PN : CorrResult Unit := ⟨"PN", "pu", none, []⟩

noncomputable def Pm05 : CorrResult Unit := ⟨"Pm05", "pu", some (-(1 / 2) : ℝ), []⟩

/-- All-finite results for the plot-selection witness. -/
noncomputable def PW1 : CorrResult Unit := ⟨"V1", "pu", some (2 / 5 : ℝ), []⟩

noncomputable def PW2 : CorrResult Unit := ⟨"V2", "pu", some (-(3 / 10 : ℝ)), []⟩

/-- A joined row whose unit of measure is absent: its question gets no
recorded result. -/
def jrow9 : JRow Unit := ⟨⟨⟨"XX", "Q", "Overall", some 1, none⟩, none, none⟩, none⟩

/-- A joined row under question `A` with no unit of measure. -/
def jrow8a : JRow Unit := ⟨⟨⟨"XX", "A", "Overall", some 1, none⟩, none, none⟩, none⟩

/-- A joined row under question `B` with a unit, so `B` is recorded. -/
def jrow8b : JRow Unit :=
  ⟨⟨⟨"YY", "B", "Overall", some 2, some "%"⟩, none, some 40⟩, none⟩

/-- The spec's five-row single-question table with one absent `DataValue`:
exactly four complete pairs remain. -/
def W5 : List (JRow Unit) :=
  [⟨⟨⟨"AL", "Q", "Overall", some 10, some "%"⟩, some 60, some 40⟩, none⟩,
   ⟨⟨⟨"AK", "Q", "Overall", some 20, some "%"⟩, some 60, some 40⟩, none⟩,
   ⟨⟨⟨"AZ", "Q", "Overall", none, some "%"⟩, some 50, some 50⟩, none⟩,
   ⟨⟨⟨"AR", "Q", "Overall", some 30, some "%"⟩, some 30, some 70⟩, none⟩,
   ⟨⟨⟨"CA", "Q", "Overall", some 40, some "%"⟩, some 30, some 70⟩, none⟩]

/-- The filtered subset the loop retains for question `Q` of `W5`. -/
def subW5 : List (JRow Unit) :=
  (W5.filter fun r => r.Question == "Q").filter
    fun r => r.Stratification1 == "Overall"

/-- The single recorded result of `W5`. -/
noncomputable def resW5 : CorrResult Unit :=
  ⟨"Q", "%", seriesCorr (subW5.map fun r => (r.DataValue, r.per_gop)), subW5⟩

/-- A 210-character question text, longer than the report's field width. -/
def longQ : String := String.mk (List.replicate 210 'x')

end CDC

namespace CDC

/-! ## Helper lemmas -/

theorem contains_iff_mem {l : List String} {a : String} :
    l.contains a = true ↔ a ∈ l :=
  List.elem_iff

theorem contains_eq_false_iff {l : List String} {a : String} :
    l.contains a = false ↔ a ∉ l := by
  rw [← Bool.not_eq_true, contains_iff_mem]

theorem not_mem_dropped {t : RawTable} {labels : List String} {c : String}
    (hc : c ∈ labels) :
    c ∉ (t.filter (fun p => !(labels.contains p.1))).map (·.1) := by
  intro habs
  obtain ⟨p, hmem, hfst⟩ := List.mem_map.mp habs
  rw [List.mem_filter] at hmem
  have h2 : labels.contains p.1 = false := by simpa using hmem.2
  rw [hfst, contains_eq_false_iff] at h2
  exact h2 hc

theorem rawtable_nodup_keys_eq {t : RawTable} (hnd : (t.map (·.1)).Nodup)
    {c : String} {v w : List (Option String)} (hv : (c, v) ∈ t)
    (hw : (c, w) ∈ t) : v = w := by
  induction t with
  | nil => cases hv
  | cons a t ih =>
    rw [List.map_cons, List.nodup_cons] at hnd
    rcases List.mem_cons.mp hv with hv1 | hv1 <;>
      rcases List.mem_cons.mp hw with hw1 | hw1
    · exact congrArg Prod.snd (hv1.trans hw1.symm)
    · rw [← hv1] at hnd
      exact absurd (List.mem_map.mpr ⟨(c, w), hw1, rfl⟩) hnd.1
    · rw [← hw1] at hnd
      exact absurd (List.mem_map.mpr ⟨(c, v), hv1, rfl⟩) hnd.1
    · exact ih hnd.2 hv1 hw1

theorem mem_uniqueFirst [DecidableEq α] {l : List α} {a : α} :
    a ∈ uniqueFirst l ↔ a ∈ l := by
  induction l with
  | nil => simp [uniqueFirst]
  | cons b t ih =>
    by_cases hab : a = b
    · subst hab; simp [uniqueFirst]
    · simp [uniqueFirst, hab, ih]

theorem insertLe_perm (le : α → α → Bool) (x : α) (l : List α) :
    List.Perm (insertLe le x l) (x :: l) := by
  induction l with
  | nil => exact List.Perm.refl _
  | cons b t ih =>
    by_cases h : le x b
    · simp [insertLe, h]
    · simp only [insertLe, h, if_false]
      exact (ih.cons b).trans (List.Perm.swap x b t)

theorem sortLe_perm (le : α → α → Bool) (l : List α) : List.Perm (sortLe le l) l := by
  induction l with
  | nil => exact List.Perm.refl _
  | cons b t ih => exact (insertLe_perm le b (sortLe le t)).trans (ih.cons b)

theorem mem_sortedKeys {l : List CountyRow} {s : String} :
    s ∈ sortedKeys l ↔ s ∈ l.map (·.state_abbr) := by
  unfold sortedKeys
  rw [(sortLe_perm _ _).mem_iff, mem_uniqueFirst]

/-! ## C10: the denylist columns are a precondition of the drop -/

/-- C10: for any denylist column, (a) if it is absent from the raw table the
cleaning step fails with `KeyError`; (b) whenever cleaning succeeds the
column is dropped, regardless of its distinct-value count. -/
theorem denylist_required_and_dropped (t : RawTable) (c : String)
    (hc : c ∈ denylist) :
    (c ∉ t.map (·.1) → cleanTable t = .error "KeyError") ∧
    (∀ t', cleanTable t = .ok t' → c ∉ t'.map (·.1)) := by
  have hcu : c ∈ uselessCols t := by
    unfold uselessCols
    exact List.mem_append_left _ hc
  constructor
  · intro habs
    unfold cleanTable dropCols
    rw [if_neg]
    intro hall
    rw [List.all_eq_true] at hall
    have := hall c hcu
    rw [contains_iff_mem] at this
    exact habs this
  · intro t' hok habs
    unfold cleanTable dropCols at hok
    by_cases hall : (uselessCols t).all fun l => (t.map (·.1)).contains l
    · rw [if_pos hall] at hok
      injection hok with hok
      subst hok
      exact not_mem_dropped hcu habs
    · rw [if_neg hall] at hok
      exact Except.noConfusion hok

/-- C10 witness: with `TopicID` missing the drop fails; on the full table the
high-cardinality denylist column `QuestionID` is still dropped. -/
theorem denylist_required_and_dropped_witness :
    ("TopicID" ∈ denylist) ∧
    ("TopicID" ∉ tableNoTopic.map (·.1) → cleanTable tableNoTopic = .error "KeyError") ∧
    (∀ t', cleanTable tableNoTopic = .ok t' → "TopicID" ∉ t'.map (·.1)) ∧
    cleanTable tableNoTopic = .error "KeyError" := by
  refine ⟨by decide, (denylist_required_and_dropped tableNoTopic "TopicID" (by decide)).1,
    (denylist_required_and_dropped tableNoTopic "TopicID" (by decide)).2, by rfl⟩

/-! ## C4: column pruning (corrected: the denylist is dropped even with
three or more distinct values) -/

/-- C4 counterexample to the claim as stated: in `tableCex` the column
`QuestionID` has 3 distinct values, yet it is absent from the cleaned
table. -/
theorem pruning_keeps_high_cardinality_cex :
    cleanTable tableCex = .ok [("Question", [some "A", some "B", some "C"])] ∧
    ("QuestionID", [some "q1", some "q2", some "q3"]) ∈ tableCex ∧
    3 ≤ ([some "q1", some "q2", some "q3"] : List (Option String)).dedup.length ∧
    "QuestionID" ∉ ([("Question", [some "A", some "B", some "C"])] : RawTable).map (·.1) := by
  refine ⟨by rfl, by decide, by decide, by decide⟩

/-- C4 amended: after a successful cleaning of a table with distinct column
labels, every column with fewer than 3 distinct values is absent, and every
column with at least 3 distinct values that is not on the fixed denylist is
retained. -/
theorem pruning_amended (t t' : RawTable) (hnd : (t.map (·.1)).Nodup)
    (hok : cleanTable t = .ok t') (c : String) (vals : List (Option String))
    (hmem : (c, vals) ∈ t) :
    (vals.dedup.length < 3 → c ∉ t'.map (·.1)) ∧
    (3 ≤ vals.dedup.length → c ∉ denylist → (c, vals) ∈ t') := by
  unfold cleanTable dropCols at hok
  by_cases hall : (uselessCols t).all fun l => (t.map (·.1)).contains l
  swap
  · rw [if_neg hall] at hok; exact Except.noConfusion hok
  rw [if_pos hall] at hok
  injection hok with hok
  subst hok
  constructor
  · intro hlt habs
    have hcu : c ∈ uselessCols t := by
      unfold uselessCols
      refine List.mem_append_right _ ?_
      rw [List.mem_filterMap]
      exact ⟨(c, vals), hmem, by rw [if_pos hlt]⟩
    exact not_mem_dropped hcu habs
  · intro hge hden
    rw [List.mem_filter]
    refine ⟨hmem, ?_⟩
    have hnc : c ∉ uselessCols t := ?_
    · simp only [Bool.not_eq_true']
      exact contains_eq_false_iff.mpr hnc
    intro hcu
    unfold uselessCols at hcu
    rcases List.mem_append.mp hcu with h | h
    · exact hden h
    · rw [List.mem_filterMap] at h
      obtain ⟨⟨c', v'⟩, hmem', hsome⟩ := h
      by_cases hlt : v'.dedup.length < 3
      · rw [if_pos hlt] at hsome
        injection hsome with hsome
        subst hsome
        have heq : v' = vals := rawtable_nodup_keys_eq hnd hmem' hmem
        rw [heq] at hlt
        omega
      · rw [if_neg hlt] at hsome
        exact Option.noConfusion hsome

/-- C4 witness: on `tableW` the near-constant `LowInfo` column (2 distinct
values) is dropped and the 3-valued non-denylist `Question` column is
retained. -/
theorem pruning_amended_witness :
    (tableW.map (·.1)).Nodup ∧
    cleanTable tableW = .ok [("Question", [some "A", some "B", some "C"])] ∧
    ("LowInfo", [some "z", some "z", none]) ∈ tableW ∧
    ("Question", [some "A", some "B", some "C"]) ∈ tableW ∧
    "LowInfo" ∉ ([("Question", [some "A", some "B", some "C"])] : RawTable).map (·.1) ∧
    ("Question", [some "A", some "B", some "C"]) ∈
      ([("Question", [some "A", some "B", some "C"])] : RawTable) := by
  refine ⟨by decide, by rfl, by decide, by decide, ?_, ?_⟩
  · exact (pruning_amended tableW _ (by decide) (by rfl) "LowInfo"
      [some "z", some "z", none] (by decide)).1 (by decide)
  · exact (pruning_amended tableW _ (by decide) (by rfl) "Question"
      [some "A", some "B", some "C"] (by decide)).2 (by decide) (by decide)

/-! ## C2: election aggregation sums and exact recomputed percentages -/

/-- C2: for every state abbreviation present in the county table there is
exactly one aggregated row for it; its vote counts are the sums over the
county rows with that abbreviation, and its percentages are recomputed
exactly from the summed counts. -/
theorem aggregate_sums_and_percentages (l : List CountyRow) (s : String)
    (hs : s ∈ l.map (·.state_abbr)) :
    ∃ a ∈ aggregateVotes l,
      a.state_abbr = s ∧
      a.total_votes = ((l.filter (fun r => r.state_abbr == s)).map (·.total_votes)).sum ∧
      a.votes_dem = ((l.filter (fun r => r.state_abbr == s)).map (·.votes_dem)).sum ∧
      a.votes_gop = ((l.filter (fun r => r.state_abbr == s)).map (·.votes_gop)).sum ∧
      a.per_dem = 100 * a.votes_dem / a.total_votes ∧
      a.per_gop = 100 * a.votes_gop / a.total_votes ∧
      ∀ b ∈ aggregateVotes l, b.state_abbr = s → b = a := by
  have hks : s ∈ sortedKeys l := mem_sortedKeys.mpr hs
  unfold aggregateVotes recompute groupSum
  rw [List.map_map]
  refine ⟨_, List.mem_map.mpr ⟨s, hks, rfl⟩, rfl, rfl, rfl, rfl, ?_, ?_, ?_⟩
  · dsimp only [Function.comp_apply]
    ring
  · dsimp only [Function.comp_apply]
    ring
  · intro b hb hbs
    obtain ⟨s', _, hphi⟩ := List.mem_map.mp hb
    rw [← hphi] at hbs ⊢
    exact congrArg _ (show s' = s from hbs)

/-- C2 witness: the spec's synthetic two-state scenario, state `A` split over
two county rows; aggregation yields exactly (100 total, 60 dem, 40 gop,
per_dem 60, per_gop 40) for `A` and (100, 30, 70, 30, 70) for `B`. -/
theorem aggregate_sums_and_percentages_witness :
    ("A" ∈ countiesW.map (·.state_abbr)) ∧
    (∃ a ∈ aggregateVotes countiesW,
      a.state_abbr = "A" ∧
      a.total_votes =
        ((countiesW.filter (fun r => r.state_abbr == "A")).map (·.total_votes)).sum ∧
      a.votes_dem =
        ((countiesW.filter (fun r => r.state_abbr == "A")).map (·.votes_dem)).sum ∧
      a.votes_gop =
        ((countiesW.filter (fun r => r.state_abbr == "A")).map (·.votes_gop)).sum ∧
      a.per_dem = 100 * a.votes_dem / a.total_votes ∧
      a.per_gop = 100 * a.votes_gop / a.total_votes ∧
      ∀ b ∈ aggregateVotes countiesW, b.state_abbr = "A" → b = a) ∧
    (aggregateVotes countiesW).map
        (fun a => (a.state_abbr, a.total_votes, a.votes_dem, a.votes_gop, a.per_dem, a.per_gop)) =
      [("A", 100, 60, 40, 60, 40), ("B", 100, 30, 70, 30, 70)] := by
  refine ⟨by decide, aggregate_sums_and_percentages countiesW "A" (by decide), ?_⟩
  have hk : sortedKeys countiesW = ["A", "B"] := by rfl
  simp only [aggregateVotes, groupSum, recompute, hk]
  simp only [countiesW, List.map_cons, List.map_nil, List.filter_cons, List.filter_nil]
  simp +decide only []
  norm_num

/-! ## C3: the joins preserve row count, order and pre-existing columns -/

/-- C3: for every health table and both lookup dictionaries, the joined
table has the same length; at every position the original row is unchanged,
`per_dem` / `per_gop` are exactly the vote-dictionary lookup (componentwise)
and `geometry` is exactly the geometry lookup, with missing keys yielding
explicit absent values rather than dropped rows. -/
theorem join_preserves_rows {G : Type} (rows : List HRow)
    (vd : List (String × ℚ × ℚ)) (sd : List (String × G)) :
    (joinStage rows vd sd).length = rows.length ∧
    ∀ i : ℕ,
      ((joinStage rows vd sd)[i]?).map (fun r => r.toVRow.toHRow) = rows[i]? ∧
      ((joinStage rows vd sd)[i]?).map (fun r => r.per_dem) =
        (rows[i]?).map (fun r => (dictGet vd r.LocationAbbr).map Prod.fst) ∧
      ((joinStage rows vd sd)[i]?).map (fun r => r.per_gop) =
        (rows[i]?).map (fun r => (dictGet vd r.LocationAbbr).map Prod.snd) ∧
      ((joinStage rows vd sd)[i]?).map (fun r => r.geometry) =
        (rows[i]?).map (fun r => dictGet sd r.LocationAbbr) ∧
      (∀ r, rows[i]? = some r → dictGet vd r.LocationAbbr = none →
        ((joinStage rows vd sd)[i]?).map (fun j => (j.per_dem, j.per_gop)) =
          some (none, none)) ∧
      (∀ r, rows[i]? = some r → dictGet sd r.LocationAbbr = none →
        ((joinStage rows vd sd)[i]?).map (fun j => j.geometry) = some none) := by
  constructor
  · simp [joinStage, addVotes, addGeometry]
  · intro i
    simp only [joinStage, addVotes, addGeometry, List.map_map, List.getElem?_map]
    cases h : rows[i]? with
    | none => simp
    | some r =>
      refine ⟨rfl, rfl, rfl, rfl, ?_, ?_⟩
      · intro r' hr' hnone
        have heq : r = r' := by injection hr'
        subst heq
        show some ((dictGet vd r.LocationAbbr).map Prod.fst,
          (dictGet vd r.LocationAbbr).map Prod.snd) = some (none, none)
        rw [hnone]
        rfl
      · intro r' hr' hnone
        have heq : r = r' := by injection hr'
        subst heq
        show some (dictGet sd r.LocationAbbr) = some none
        rw [hnone]

/-- C3 witness: on three concrete health rows, matched states get exactly the
looked-up pair and geometry in row order; the unmatched territory `GU` keeps
its row with explicit absent values. -/
theorem join_preserves_rows_witness :
    (joinStage hrowsW vdW sdW).length = hrowsW.length ∧
    hrowsW.length = 3 ∧
    ((joinStage hrowsW vdW sdW)[0]?).map (fun j => (j.per_dem, j.per_gop, j.geometry)) =
      some (some 60, some 40, some 17) ∧
    ((joinStage hrowsW vdW sdW)[2]?).map (fun j => (j.per_dem, j.per_gop, j.geometry)) =
      some (none, none, none) ∧
    ((joinStage hrowsW vdW sdW)[1]?).map (fun j => j.toVRow.toHRow) =
      some ⟨"B", "Q", "Overall", some 30, some "%"⟩ := by
  refine ⟨(join_preserves_rows hrowsW vdW sdW).1, by rfl, by rfl, by rfl,
    ((join_preserves_rows hrowsW vdW sdW).2 1).1.trans (by rfl)⟩

/-! ## The CPython sort: permutation and (for well-behaved keys) sortedness -/

theorem takeAscRun_append (lt : α → α → Prop) [DecidableRel lt] (a : α)
    (l : List α) : (takeAscRun lt a l).1 ++ (takeAscRun lt a l).2 = a :: l := by
  induction l generalizing a with
  | nil => rfl
  | cons b rest ih =>
    by_cases h : lt b a
    · simp [takeAscRun, h]
    · simp [takeAscRun, h, ih b]

theorem takeDescRun_append (lt : α → α → Prop) [DecidableRel lt] (a : α)
    (l : List α) : (takeDescRun lt a l).1 ++ (takeDescRun lt a l).2 = a :: l := by
  induction l generalizing a with
  | nil => rfl
  | cons b rest ih =>
    by_cases h : lt b a
    · simp [takeDescRun, h, ih b]
    · simp [takeDescRun, h]

theorem mem_takeAscRun (lt : α → α → Prop) [DecidableRel lt] {a y : α}
    {l : List α} (hy : y ∈ (takeAscRun lt a l).1) : y ∈ a :: l := by
  rw [← takeAscRun_append lt a l]
  exact List.mem_append_left _ hy

theorem mem_takeDescRun (lt : α → α → Prop) [DecidableRel lt] {a y : α}
    {l : List α} (hy : y ∈ (takeDescRun lt a l).1) : y ∈ a :: l := by
  rw [← takeDescRun_append lt a l]
  exact List.mem_append_left _ hy

theorem insertAt_perm (pre : List α) (p : ℕ) (x : α) :
    List.Perm (insertAt pre p x) (x :: pre) := by
  unfold insertAt
  refine List.Perm.trans List.perm_middle ?_
  rw [List.take_append_drop]

theorem binInsertAll_perm (lt : α → α → Prop) [DecidableRel lt]
    (pre xs : List α) : List.Perm (binInsertAll lt pre xs) (pre ++ xs) := by
  induction xs generalizing pre with
  | nil => simp [binInsertAll]
  | cons x xs ih =>
    refine List.Perm.trans (ih _) ?_
    refine List.Perm.trans (List.Perm.append_right xs (insertAt_perm pre _ x)) ?_
    exact List.perm_middle.symm

theorem pySort_perm (lt : α → α → Prop) [DecidableRel lt] (l : List α) :
    List.Perm (pySort lt l) l := by
  match l with
  | [] => exact List.Perm.refl _
  | [a] => exact List.Perm.refl _
  | a :: b :: rest =>
    by_cases h : lt b a
    · simp only [pySort, h, if_true]
      refine List.Perm.trans (binInsertAll_perm _ _ _) ?_
      refine List.Perm.trans
        (List.Perm.append_right _ (List.reverse_perm (a :: (takeDescRun lt b rest).1))) ?_
      have hs := takeDescRun_append lt b rest
      rw [List.cons_append, hs]
    · simp only [pySort, h, if_false]
      refine List.Perm.trans (binInsertAll_perm _ _ _) ?_
      have hs := takeAscRun_append lt b rest
      rw [List.cons_append, hs]

theorem SortReady.not_lt_self {lt : α → α → Prop} {S : α → Prop}
    (hr : SortReady lt S) {a : α} (ha : S a) : ¬ lt a a :=
  fun h => hr.1 a a ha ha h h

theorem takeAscRun_sorted (lt : α → α → Prop) [DecidableRel lt] {S : α → Prop}
    (hr : SortReady lt S) (a : α) (l : List α) (ha : S a)
    (hl : ∀ x ∈ l, S x) :
    List.Pairwise (fun u v => ¬ lt v u) (takeAscRun lt a l).1 ∧
    ∀ y ∈ (takeAscRun lt a l).1, ¬ lt y a := by
  induction l generalizing a with
  | nil =>
    refine ⟨by simp [takeAscRun], ?_⟩
    intro y hy
    simp only [takeAscRun, List.mem_singleton] at hy
    subst hy
    exact hr.not_lt_self ha
  | cons b rest ih =>
    have hb : S b := hl b (List.mem_cons_self _ _)
    have hrest : ∀ x ∈ rest, S x := fun x hx => hl x (List.mem_cons_of_mem _ hx)
    by_cases h : lt b a
    · refine ⟨by simp [takeAscRun, h], ?_⟩
      intro y hy
      simp only [takeAscRun, h, if_true, List.mem_singleton] at hy
      subst hy
      exact hr.not_lt_self ha
    · obtain ⟨ihp, ihy⟩ := ih b hb hrest
      have hSy : ∀ y ∈ (takeAscRun lt b rest).1, S y := fun y hy =>
        (List.mem_cons.mp (mem_takeAscRun lt hy)).elim (fun e => e ▸ hb) (hrest y)
      have hya : ∀ y ∈ (takeAscRun lt b rest).1, ¬ lt y a := fun y hy =>
        hr.2.1 a b y ha hb (hSy y hy) h (ihy y hy)
      constructor
      · simp only [takeAscRun, h, if_false]
        exact List.pairwise_cons.mpr ⟨hya, ihp⟩
      · intro y hy
        simp only [takeAscRun, h, if_false, List.mem_cons] at hy
        rcases hy with hy | hy
        · subst hy; exact hr.not_lt_self ha
        · exact hya y hy

theorem takeDescRun_sorted (lt : α → α → Prop) [DecidableRel lt] {S : α → Prop}
    (hr : SortReady lt S) (a : α) (l : List α) (ha : S a)
    (hl : ∀ x ∈ l, S x) :
    List.Pairwise (fun u v => lt v u) (takeDescRun lt a l).1 ∧
    ∀ y ∈ (takeDescRun lt a l).1, y = a ∨ lt y a := by
  induction l generalizing a with
  | nil =>
    refine ⟨by simp [takeDescRun], ?_⟩
    intro y hy
    simp only [takeDescRun, List.mem_singleton] at hy
    exact Or.inl hy
  | cons b rest ih =>
    have hb : S b := hl b (List.mem_cons_self _ _)
    have hrest : ∀ x ∈ rest, S x := fun x hx => hl x (List.mem_cons_of_mem _ hx)
    by_cases h : lt b a
    · obtain ⟨ihp, ihy⟩ := ih b hb hrest
      have hSy : ∀ y ∈ (takeDescRun lt b rest).1, S y := fun y hy =>
        (List.mem_cons.mp (mem_takeDescRun lt hy)).elim (fun e => e ▸ hb) (hrest y)
      have hya : ∀ y ∈ (takeDescRun lt b rest).1, lt y a := by
        intro y hy
        rcases ihy y hy with he | hlt
        · exact he ▸ h
        · exact hr.2.2 y b a (hSy y hy) hb ha hlt (hr.1 b a hb ha h)
      constructor
      · simp only [takeDescRun, h, if_true]
        exact List.pairwise_cons.mpr ⟨hya, ihp⟩
      · intro y hy
        simp only [takeDescRun, h, if_true, List.mem_cons] at hy
        rcases hy with hy | hy
        · exact Or.inl hy
        · exact Or.inr (hya y hy)
    · refine ⟨by simp [takeDescRun, h], ?_⟩
      intro y hy
      simp only [takeDescRun, h, if_false, List.mem_singleton] at hy
      exact Or.inl hy

theorem binPosF_spec (lt : α → α → Prop) [DecidableRel lt] {S : α → Prop}
    (hr : SortReady lt S) (x : α) (pre : List α) (hx : S x)
    (hpre : ∀ y ∈ pre, S y)
    (hsorted : List.Pairwise (fun u v => ¬ lt v u) pre) :
    ∀ fuel l r, r - l ≤ fuel → l ≤ r → r ≤ pre.length →
      (∀ i (hi : i < pre.length), i < l → ¬ lt x pre[i]) →
      (∀ i (hi : i < pre.length), r ≤ i → lt x pre[i]) →
      binPosF lt x pre fuel l r ≤ pre.length ∧
      (∀ i (hi : i < pre.length), i < binPosF lt x pre fuel l r → ¬ lt x pre[i]) ∧
      (∀ i (hi : i < pre.length), binPosF lt x pre fuel l r ≤ i → lt x pre[i]) := by
  have hgetS : ∀ (i : ℕ) (hi : i < pre.length), S pre[i] := fun i hi =>
    hpre _ (pre.getElem_mem hi)
  have hsort := List.pairwise_iff_getElem.mp hsorted
  intro fuel
  induction fuel with
  | zero =>
    intro l r hfuel hlr hrlen hl hrr
    have : l = r := by omega
    subst this
    simp only [binPosF]
    exact ⟨hrlen, hl, hrr⟩
  | succ fuel ih =>
    intro l r hfuel hlr hrlen hl hrr
    by_cases hcond : l < r
    · have hmidr : l + (r - l) / 2 < r := by omega
      have hmidlen : l + (r - l) / 2 < pre.length := by omega
      rw [show binPosF lt x pre (fuel + 1) l r =
          (if lt x (pre.getD (l + (r - l) / 2) x) then
            binPosF lt x pre fuel l (l + (r - l) / 2)
          else binPosF lt x pre fuel (l + (r - l) / 2 + 1) r) from by
        simp [binPosF, hcond]]
      rw [List.getD_eq_getElem pre x hmidlen]
      by_cases hc : lt x pre[l + (r - l) / 2]
      · rw [if_pos hc]
        refine ih l (l + (r - l) / 2) (by omega) (by omega) (by omega) hl ?_
        intro i hi hmi
        rcases Nat.eq_or_lt_of_le hmi with he | hgt
        · subst he
          exact hc
        · have hmem : ¬ lt pre[i] pre[l + (r - l) / 2] :=
            hsort _ _ hmidlen hi hgt
          exact hr.2.2 x pre[l + (r - l) / 2] pre[i] hx (hgetS _ hmidlen)
            (hgetS _ hi) hc hmem
      · rw [if_neg hc]
        refine ih (l + (r - l) / 2 + 1) r (by omega) (by omega) hrlen ?_ hrr
        intro i hi hmi
        rcases Nat.lt_succ_iff_lt_or_eq.mp hmi with hgt | he
        · have hle : ¬ lt pre[l + (r - l) / 2] pre[i] :=
            hsort _ _ hi hmidlen hgt
          exact hr.2.1 pre[i] pre[l + (r - l) / 2] x (hgetS _ hi)
            (hgetS _ hmidlen) hx hle hc
        · subst he
          exact hc
    · have : l = r := by omega
      subst this
      simp only [binPosF, hcond, if_false]
      exact ⟨hrlen, hl, hrr⟩

theorem binPos_spec (lt : α → α → Prop) [DecidableRel lt] {S : α → Prop}
    (hr : SortReady lt S) (x : α) (pre : List α) (hx : S x)
    (hpre : ∀ y ∈ pre, S y)
    (hsorted : List.Pairwise (fun u v => ¬ lt v u) pre) :
    binPos lt x pre 0 pre.length ≤ pre.length ∧
    (∀ i (hi : i < pre.length), i < binPos lt x pre 0 pre.length → ¬ lt x pre[i]) ∧
    (∀ i (hi : i < pre.length), binPos lt x pre 0 pre.length ≤ i → lt x pre[i]) := by
  unfold binPos
  exact binPosF_spec lt hr x pre hx hpre hsorted (pre.length - 0) 0 pre.length
    (by omega) (by omega) (by omega) (fun i hi h => absurd h (by omega))
    (fun i hi h => absurd hi (by omega))

theorem insertAt_sorted (lt : α → α → Prop) [DecidableRel lt] {S : α → Prop}
    (hr : SortReady lt S) {pre : List α} {x : α} {p : ℕ} (hx : S x)
    (hpre : ∀ y ∈ pre, S y)
    (hsorted : List.Pairwise (fun u v => ¬ lt v u) pre) (hp : p ≤ pre.length)
    (hbelow : ∀ i (hi : i < pre.length), i < p → ¬ lt x pre[i])
    (habove : ∀ i (hi : i < pre.length), p ≤ i → lt x pre[i]) :
    List.Pairwise (fun u v => ¬ lt v u) (insertAt pre p x) := by
  have hsort := List.pairwise_iff_getElem.mp hsorted
  have hgetS : ∀ (i : ℕ) (hi : i < pre.length), S pre[i] := fun i hi =>
    hpre _ (pre.getElem_mem hi)
  unfold insertAt
  rw [List.pairwise_append]
  refine ⟨hsorted.sublist (List.take_sublist p pre), ?_, ?_⟩
  · rw [List.pairwise_cons]
    constructor
    · intro y hy
      obtain ⟨j, hj, hval⟩ := List.mem_iff_getElem.mp hy
      have hjlen : p + j < pre.length := by
        have := hj
        rw [List.length_drop] at this
        omega
      rw [List.getElem_drop] at hval
      have := habove (p + j) hjlen (by omega)
      rw [hval] at this
      exact hr.1 x y hx (hval ▸ hgetS _ hjlen) this
    · refine hsorted.sublist (List.drop_sublist p pre)
  · intro a ha b hb
    obtain ⟨i, hi, hvala⟩ := List.mem_iff_getElem.mp ha
    have hilen : i < pre.length := by
      have := hi
      rw [List.length_take] at this
      omega
    have hip : i < p := by
      have := hi
      rw [List.length_take] at this
      omega
    rw [List.getElem_take] at hvala
    rcases List.mem_cons.mp hb with hbx | hbd
    · subst hbx
      have := hbelow i hilen hip
      rw [hvala] at this
      exact this
    · obtain ⟨j, hj, hvalb⟩ := List.mem_iff_getElem.mp hbd
      have hjlen : p + j < pre.length := by
        have := hj
        rw [List.length_drop] at this
        omega
      rw [List.getElem_drop] at hvalb
      have := hsort i (p + j) hilen hjlen (by omega)
      rw [hvala, hvalb] at this
      exact this

theorem binInsertAll_sorted (lt : α → α → Prop) [DecidableRel lt] {S : α → Prop}
    (hr : SortReady lt S) (pre xs : List α) (hpre : ∀ y ∈ pre, S y)
    (hxs : ∀ x ∈ xs, S x)
    (hsorted : List.Pairwise (fun u v => ¬ lt v u) pre) :
    List.Pairwise (fun u v => ¬ lt v u) (binInsertAll lt pre xs) := by
  induction xs generalizing pre with
  | nil => exact hsorted
  | cons x xs ih =>
    have hxS : S x := hxs x (List.mem_cons_self _ _)
    obtain ⟨hple, hbelow, habove⟩ := binPos_spec lt hr x pre hxS hpre hsorted
    refine ih _ ?_ (fun y hy => hxs y (List.mem_cons_of_mem _ hy)) ?_
    · intro y hy
      have : y ∈ x :: pre := (insertAt_perm pre _ x).mem_iff.mp hy
      rcases List.mem_cons.mp this with h | h
      · exact h ▸ hxS
      · exact hpre y h
    · exact insertAt_sorted lt hr hxS hpre hsorted hple hbelow habove

theorem pySort_sorted (lt : α → α → Prop) [DecidableRel lt] {S : α → Prop}
    (hr : SortReady lt S) (l : List α) (hl : ∀ x ∈ l, S x) :
    List.Pairwise (fun u v => ¬ lt v u) (pySort lt l) := by
  match l with
  | [] => simp [pySort]
  | [a] => simp [pySort]
  | a :: b :: rest =>
    have ha : S a := hl a (List.mem_cons_self _ _)
    have hb : S b := hl b (List.mem_cons_of_mem _ (List.mem_cons_self _ _))
    have hrest : ∀ x ∈ rest, S x := fun x hx =>
      hl x (List.mem_cons_of_mem _ (List.mem_cons_of_mem _ hx))
    have hSrun : ∀ y ∈ (a :: (takeDescRun lt b rest).1), S y := by
      intro y hy
      rcases List.mem_cons.mp hy with h | h
      · exact h ▸ ha
      · rcases List.mem_cons.mp (mem_takeDescRun lt h) with h2 | h2
        · exact h2 ▸ hb
        · exact hrest y h2
    have hSasc : ∀ y ∈ (a :: (takeAscRun lt b rest).1), S y := by
      intro y hy
      rcases List.mem_cons.mp hy with h | h
      · exact h ▸ ha
      · rcases List.mem_cons.mp (mem_takeAscRun lt h) with h2 | h2
        · exact h2 ▸ hb
        · exact hrest y h2
    have hSrem : ∀ y ∈ (takeDescRun lt b rest).2, S y := by
      intro y hy
      have : y ∈ b :: rest := by
        rw [← takeDescRun_append lt b rest]
        exact List.mem_append_right _ hy
      rcases List.mem_cons.mp this with h | h
      · exact h ▸ hb
      · exact hrest y h
    have hSremA : ∀ y ∈ (takeAscRun lt b rest).2, S y := by
      intro y hy
      have : y ∈ b :: rest := by
        rw [← takeAscRun_append lt b rest]
        exact List.mem_append_right _ hy
      rcases List.mem_cons.mp this with h | h
      · exact h ▸ hb
      · exact hrest y h
    by_cases h : lt b a
    · simp only [pySort, h, if_true]
      obtain ⟨hpd, hyd⟩ := takeDescRun_sorted lt hr b rest hb hrest
      have hrun : List.Pairwise (fun u v => lt v u)
          (a :: (takeDescRun lt b rest).1) := by
        rw [List.pairwise_cons]
        refine ⟨?_, hpd⟩
        intro y hy
        rcases hyd y hy with he | hlt
        · exact he ▸ h
        · have hSy : S y := hSrun y (List.mem_cons_of_mem _ hy)
          exact hr.2.2 y b a hSy hb ha hlt (hr.1 b a hb ha h)
      refine binInsertAll_sorted lt hr _ _ ?_ hSrem ?_
      · intro y hy
        exact hSrun y ((List.reverse_perm _).mem_iff.mp hy)
      · rw [List.pairwise_reverse]
        refine hrun.imp_of_mem ?_
        intro u v hu hv huv
        exact hr.1 v u (hSrun v hv) (hSrun u hu) huv
    · simp only [pySort, h, if_false]
      obtain ⟨hpa, hya⟩ := takeAscRun_sorted lt hr b rest hb hrest
      have hrun : List.Pairwise (fun u v => ¬ lt v u)
          (a :: (takeAscRun lt b rest).1) := by
        rw [List.pairwise_cons]
        refine ⟨?_, hpa⟩
        intro y hy
        have hSy : S y := hSasc y (List.mem_cons_of_mem _ hy)
        exact hr.2.1 a b y ha hb hSy h (hya y hy)
      exact binInsertAll_sorted lt hr _ _ hSasc hSremA hrun

@[simp]
theorem optLt_some_some {x y : ℝ} : optLt (some x) (some y) ↔ x < y :=
  Iff.rfl

@[simp]
theorem optLt_none_left {b : Option ℝ} : ¬ optLt none b := by
  cases b <;> exact fun h => h

@[simp]
theorem optLt_none_right {a : Option ℝ} : ¬ optLt a none := by
  cases a <;> exact fun h => h

theorem sortReady_of_finite {G : Type} (l : List (CorrResult G))
    (hfin : ∀ r ∈ l, r.coef ≠ none) :
    SortReady (fun a b : CorrResult G => optLt a.coef b.coef) (fun r => r ∈ l) := by
  have hsome : ∀ r ∈ l, ∃ x : ℝ, r.coef = some x := by
    intro r hr
    cases hc : r.coef with
    | none => exact absurd hc (hfin r hr)
    | some x => exact ⟨x, rfl⟩
  refine ⟨?_, ?_, ?_⟩
  · intro a b ha hb hab
    obtain ⟨x, hx⟩ := hsome a ha
    obtain ⟨y, hy⟩ := hsome b hb
    have hab2 : optLt a.coef b.coef := hab
    show ¬ optLt b.coef a.coef
    rw [hx, hy] at hab2
    rw [hy, hx]
    rw [optLt_some_some] at hab2 ⊢
    exact not_lt.mpr hab2.le
  · intro a b c ha hb hc hba hcb
    obtain ⟨x, hx⟩ := hsome a ha
    obtain ⟨y, hy⟩ := hsome b hb
    obtain ⟨z, hz⟩ := hsome c hc
    have hba2 : ¬ optLt b.coef a.coef := hba
    have hcb2 : ¬ optLt c.coef b.coef := hcb
    show ¬ optLt c.coef a.coef
    rw [hy, hx] at hba2
    rw [hz, hy] at hcb2
    rw [hz, hx]
    rw [optLt_some_some] at hba2 hcb2 ⊢
    exact not_lt.mpr (le_trans (not_lt.mp hba2) (not_lt.mp hcb2))
  · intro a b c ha hb hc hab hcb
    obtain ⟨x, hx⟩ := hsome a ha
    obtain ⟨y, hy⟩ := hsome b hb
    obtain ⟨z, hz⟩ := hsome c hc
    have hab2 : optLt a.coef b.coef := hab
    have hcb2 : ¬ optLt c.coef b.coef := hcb
    show optLt a.coef c.coef
    rw [hx, hy] at hab2
    rw [hz, hy] at hcb2
    rw [hx, hz]
    rw [optLt_some_some] at hab2 hcb2 ⊢
    exact lt_of_lt_of_le hab2 (not_lt.mp hcb2)

/-- Shared: with no `NaN` coefficient recorded, the sorted result list is
pairwise nondecreasing in the coefficients. -/
theorem sortResults_sorted_of_finite {G : Type} (l : List (CorrResult G))
    (hfin : ∀ r ∈ l, r.coef ≠ none) :
    List.Pairwise (fun a b => ∀ x y : ℝ, a.coef = some x → b.coef = some y → x ≤ y)
      (sortResults l) := by
  have hsorted := pySort_sorted (fun a b : CorrResult G => optLt a.coef b.coef)
    (sortReady_of_finite l hfin) l (fun x hx => hx)
  refine hsorted.imp_of_mem ?_
  intro a b ha hb hnab x y hax hby
  have hnab2 : ¬ optLt b.coef a.coef := hnab
  rw [hby, hax] at hnab2
  rw [optLt_some_some] at hnab2
  exact not_lt.mp hnab2

/-- Shared: the sort is a permutation of the recorded results. -/
theorem sortResults_perm {G : Type} (l : List (CorrResult G)) :
    List.Perm (sortResults l) l :=
  pySort_perm _ l

/-! ## C5: report ordering (corrected: ascending only when no coefficient is
`NaN`; an undefined coefficient can leave finite ones out of order) -/

/-- C5 counterexample to the claim as stated: with recorded coefficients in
input order `0.2`, `NaN`, `-0.5`, the sort leaves the list unchanged, so the
report line of the `-0.5` question comes after the `0.2` one even though
`-0.5 < 0.2`. -/
theorem report_order_nan_cex :
    (sortResults [R02, RN, Rm05]).map (fun r => r.question) =
      ["Q02", "QN", "Qm05"] ∧
    R02.coef = some (1 / 5 : ℝ) ∧ RN.coef = none ∧
    Rm05.coef = some (-(1 / 2) : ℝ) ∧ ((-(1 / 2) : ℝ) < 1 / 5) ∧
    reportOf fstr0 (sortResults [R02, RN, Rm05]) =
      reportHeader ++
        String.join [reportLine fstr0 R02, reportLine fstr0 RN, reportLine fstr0 Rm05] := by
  have hs : sortResults [R02, RN, Rm05] = [R02, RN, Rm05] := by rfl
  refine ⟨by rw [hs]; rfl, rfl, rfl, rfl, by norm_num, ?_⟩
  rw [hs]
  rfl

/-- C5 amended: when every recorded coefficient is a number (no `NaN`), the
report lists results in ascending coefficient order: any result appearing
earlier has a coefficient at most that of any later one. -/
theorem report_order_ascending_when_finite {G : Type} (l : List (CorrResult G))
    (hfin : ∀ r ∈ l, r.coef ≠ none) :
    List.Pairwise (fun a b => ∀ x y : ℝ, a.coef = some x → b.coef = some y → x ≤ y)
      (sortResults l) :=
  sortResults_sorted_of_finite l hfin

/-- C5 witness: two finite coefficients `0.2` and `-0.5`. -/
theorem report_order_ascending_when_finite_witness :
    (∀ r ∈ ([RW1, RW2] : List (CorrResult Unit)), r.coef ≠ none) ∧
    List.Pairwise (fun a b => ∀ x y : ℝ, a.coef = some x → b.coef = some y → x ≤ y)
      (sortResults [RW1, RW2]) := by
  have hfin : ∀ r ∈ ([RW1, RW2] : List (CorrResult Unit)), r.coef ≠ none := by
    intro r hr
    rcases List.mem_cons.mp hr with h | h
    · subst h; exact Option.some_ne_none _
    · rcases List.mem_cons.mp h with h2 | h2
      · subst h2; exact Option.some_ne_none _
      · cases h2
  exact ⟨hfin, report_order_ascending_when_finite [RW1, RW2] hfin⟩

/-! ## C7: the rendered map (corrected: it is the first sorted entry, which
is the lowest coefficient only when no coefficient is `NaN`) -/

/-- C7 counterexample to the claim as stated: with coefficients `0.2`,
`NaN`, `-0.5` in that input order the plotted entry is the `0.2` question,
although a strictly lower finite coefficient (`-0.5`) was recorded. -/
theorem plot_lowest_cex :
    plotOf (sortResults [P02, PN, Pm05]) =
      .ok ⟨P02.sub, "DataValue", "P02 (pu)", (-180, -60), (20, 75), "Purples"⟩ ∧
    Pm05 ∈ ([P02, PN, Pm05] : List (CorrResult Unit)) ∧
    P02.coef = some (1 / 5 : ℝ) ∧ Pm05.coef = some (-(1 / 2) : ℝ) ∧
    ((-(1 / 2) : ℝ) < 1 / 5) := by
  have hs : sortResults [P02, PN, Pm05] = [P02, PN, Pm05] := by rfl
  refine ⟨by rw [hs]; rfl, ?_, rfl, rfl, by norm_num⟩
  exact List.mem_cons_of_mem _ (List.mem_cons_of_mem _ (List.mem_cons_self _ _))

/-- C7 amended: on a nonempty result list the rendered map is built from the
first sorted entry (its retained subset coloured by `DataValue`, titled with
its question and unit), and that entry has the lowest coefficient whenever
every recorded coefficient is a number. -/
theorem plot_first_sorted_entry {G : Type} (l : List (CorrResult G))
    (hne : l ≠ []) (hfin : ∀ r ∈ l, r.coef ≠ none) :
    ∃ e, e ∈ l ∧
      plotOf (sortResults l) = .ok ⟨e.sub, "DataValue",
        e.question ++ " (" ++ e.units ++ ")", (-180, -60), (20, 75), "Purples"⟩ ∧
      ∀ r ∈ l, ∀ x y : ℝ, e.coef = some x → r.coef = some y → x ≤ y := by
  have hperm := sortResults_perm l
  cases hsr : sortResults l with
  | nil =>
    rw [hsr] at hperm
    exact absurd hperm.symm.eq_nil hne
  | cons e tail =>
    have hpair := sortResults_sorted_of_finite l hfin
    rw [hsr] at hpair
    have hemem : e ∈ l := by
      have : e ∈ sortResults l := hsr ▸ List.mem_cons_self _ _
      exact hperm.mem_iff.mp this
    refine ⟨e, hemem, rfl, ?_⟩
    intro r hr x y hex hry
    have hrs : r ∈ sortResults l := hperm.mem_iff.mpr hr
    rw [hsr] at hrs
    rcases List.mem_cons.mp hrs with he | ht
    · subst he
      rw [hex] at hry
      injection hry with h
      exact h.le
    · exact (List.pairwise_cons.mp hpair).1 r ht x y hex hry

/-- C7 witness: two finite coefficients; the plotted entry is the `-0.3`
question `V2`. -/
theorem plot_first_sorted_entry_witness :
    (([PW1, PW2] : List (CorrResult Unit)) ≠ []) ∧
    (∀ r ∈ ([PW1, PW2] : List (CorrResult Unit)), r.coef ≠ none) ∧
    (∃ e, e ∈ ([PW1, PW2] : List (CorrResult Unit)) ∧
      plotOf (sortResults [PW1, PW2]) = .ok ⟨e.sub, "DataValue",
        e.question ++ " (" ++ e.units ++ ")", (-180, -60), (20, 75), "Purples"⟩ ∧
      ∀ r ∈ ([PW1, PW2] : List (CorrResult Unit)), ∀ x y : ℝ,
        e.coef = some x → r.coef = some y → x ≤ y) := by
  have hfin : ∀ r ∈ ([PW1, PW2] : List (CorrResult Unit)), r.coef ≠ none := by
    intro r hr
    rcases List.mem_cons.mp hr with h | h
    · subst h; exact Option.some_ne_none _
    · rcases List.mem_cons.mp h with h2 | h2
      · subst h2; exact Option.some_ne_none _
      · cases h2
  exact ⟨by simp, hfin, plot_first_sorted_entry [PW1, PW2] (by simp) hfin⟩

/-! ## C9: an empty result list aborts the plot after the report is written -/

/-- C9: if no question records a result, the report text is still produced
(just the header), and the plot selection fails with an index error. -/
theorem plot_requires_some_result {G : Type} (fstr : ℝ → String)
    (rows : List (JRow G)) (h : processQuestions rows = []) :
    (analyzeTail fstr (processQuestions rows)).1 = reportHeader ∧
    (analyzeTail fstr (processQuestions rows)).2 =
      .error "IndexError: list index out of range" := by
  rw [h]
  constructor
  · show reportOf fstr (sortResults []) = reportHeader
    show reportHeader ++ String.join (List.map (reportLine fstr) (sortResults [])) =
      reportHeader
    have hs : sortResults ([] : List (CorrResult G)) = [] := rfl
    rw [hs]
    simp [String.join]
  · rfl

/-- C9 witness: a single row with no unit of measure records nothing; the
report is the bare header and the plot selection errors. -/
theorem plot_requires_some_result_witness :
    processQuestions [jrow9] = [] ∧
    (analyzeTail fstr0 (processQuestions [jrow9])).1 = reportHeader ∧
    (analyzeTail fstr0 (processQuestions [jrow9])).2 =
      .error "IndexError: list index out of range" := by
  have h : processQuestions [jrow9] = ([] : List (CorrResult Unit)) := rfl
  exact ⟨h, (plot_requires_some_result fstr0 [jrow9] h).1,
    (plot_requires_some_result fstr0 [jrow9] h).2⟩

/-! ## C8: a question with no unit value is silently excluded -/

theorem questionResult_eq_some {G : Type} {rows : List (JRow G)} {q : String}
    {res : CorrResult G} (h : questionResult rows q = some res) :
    res.question = q ∧
    res.coef = seriesCorr
      (((rows.filter fun r => r.Question == q).filter
        fun r => r.Stratification1 == "Overall").map
          fun r => (r.DataValue, r.per_gop)) ∧
    res.sub = ((rows.filter fun r => r.Question == q).filter
      fun r => r.Stratification1 == "Overall") ∧
    modeList (((rows.filter fun r => r.Question == q).filter
      fun r => r.Stratification1 == "Overall").filterMap
        fun r => r.DataValueUnit) ≠ [] := by
  unfold questionResult at h
  dsimp only at h
  cases hm : modeList (((rows.filter fun r => r.Question == q).filter
      fun r => r.Stratification1 == "Overall").filterMap
        fun r => r.DataValueUnit) with
  | nil =>
    rw [hm] at h
    exact Option.noConfusion h
  | cons u tail =>
    rw [hm] at h
    injection h with h
    subst h
    exact ⟨rfl, rfl, rfl, List.cons_ne_nil u tail⟩

/-- C8: when the filtered subset of a question yields no unit-of-measure
value, no result is recorded for it — neither in the result list nor in the
sorted report order — while other questions are unaffected; the exclusion is
a total function, not an error. -/
theorem question_without_units_excluded {G : Type} (rows : List (JRow G))
    (q : String)
    (h : modeList (((rows.filter fun r => r.Question == q).filter
      fun r => r.Stratification1 == "Overall").filterMap
        fun r => r.DataValueUnit) = []) :
    (∀ res ∈ processQuestions rows, res.question ≠ q) ∧
    (∀ res ∈ sortResults (processQuestions rows), res.question ≠ q) := by
  have main : ∀ res ∈ processQuestions rows, res.question ≠ q := by
    intro res hres hq
    unfold processQuestions at hres
    rw [List.mem_filterMap] at hres
    obtain ⟨q', _, hf⟩ := hres
    obtain ⟨hqq, _, _, hne⟩ := questionResult_eq_some hf
    rw [hq] at hqq
    rw [← hqq] at hne
    exact hne h
  refine ⟨main, ?_⟩
  intro res hres
  exact main res ((sortResults_perm _).mem_iff.mp hres)

/-- C8 witness: question `A` has rows but only absent units, question `B`
has a unit; only `B` is recorded and the loop finishes normally. -/
theorem question_without_units_excluded_witness :
    modeList ((([jrow8a, jrow8b].filter fun r => r.Question == "A").filter
      fun r => r.Stratification1 == "Overall").filterMap
        fun r => r.DataValueUnit) = [] ∧
    (∀ res ∈ processQuestions [jrow8a, jrow8b], res.question ≠ "A") ∧
    (∀ res ∈ sortResults (processQuestions [jrow8a, jrow8b]), res.question ≠ "A") ∧
    (processQuestions [jrow8a, jrow8b]).map (fun r => r.question) = ["B"] := by
  have h : modeList ((([jrow8a, jrow8b].filter fun r => r.Question == "A").filter
      fun r => r.Stratification1 == "Overall").filterMap
        fun r => r.DataValueUnit) = [] := rfl
  exact ⟨h, (question_without_units_excluded [jrow8a, jrow8b] "A" h).1,
    (question_without_units_excluded [jrow8a, jrow8b] "A" h).2, rfl⟩

/-! ## C1: the recorded coefficient is the pairwise-complete Pearson
coefficient of exactly the question's Overall rows -/

/-- C1: every recorded result's coefficient equals the Pearson coefficient
between `DataValue` and `per_gop` over exactly the rows whose `Question`
matches and whose `Stratification1` is `"Overall"`, using only the pairs
where both values are present. -/
theorem recorded_coef_is_pairwise_pearson {G : Type} (rows : List (JRow G))
    (res : CorrResult G) (h : res ∈ processQuestions rows) :
    res.coef = pearsonOfQuestion rows res.question := by
  unfold processQuestions at h
  rw [List.mem_filterMap] at h
  obtain ⟨q, _, hf⟩ := h
  obtain ⟨hqq, hcoef, _, _⟩ := questionResult_eq_some hf
  rw [hqq, hcoef]
  unfold pearsonOfQuestion seriesCorr completeOptPairs
  rw [List.filterMap_map, List.filter_filter]
  have hfilter : rows.filter
      (fun a => (a.Stratification1 == "Overall") && (a.Question == q)) =
      rows.filter (fun r => (r.Question == q) && (r.Stratification1 == "Overall")) :=
    List.filter_congr (fun a _ => Bool.and_comm _ _)
  rw [hfilter]
  apply congrArg pearsonOpt
  have hfn : ((fun p : Option ℚ × Option ℚ =>
      match p with
      | (some a, some b) => some (a, b)
      | _ => none) ∘ fun r : JRow G => (r.DataValue, r.per_gop)) =
      fun r : JRow G =>
        match r.DataValue, r.per_gop with
        | some x, some y => some (x, y)
        | _, _ => none := by
    funext r
    show (match (r.DataValue, r.per_gop) with
      | (some a, some b) => some (a, b)
      | _ => none) = _
    cases r.DataValue <;> cases r.per_gop <;> rfl
  rw [hfn]

/-- C1 witness: the five-row question with one absent `DataValue`; the
recorded coefficient is the Pearson coefficient of the remaining four
complete pairs. -/
theorem recorded_coef_is_pairwise_pearson_witness :
    resW5 ∈ processQuestions W5 ∧
    resW5.coef = pearsonOfQuestion W5 resW5.question ∧
    pearsonOfQuestion W5 resW5.question =
      pearsonOpt [((10 : ℚ), (40 : ℚ)), (20, 40), (30, 70), (40, 70)] := by
  have hmem : resW5 ∈ processQuestions W5 := List.mem_singleton.mpr rfl
  exact ⟨hmem, recorded_coef_is_pairwise_pearson W5 resW5 hmem, rfl⟩

/-! ## C6: report line layout (corrected: the 200-wide field pads but never
truncates, and a computed coefficient is written unrounded) -/

set_option maxRecDepth 8000 in
/-- C6 counterexample to the claim as stated: a 210-character question is
not truncated; the field keeps all 214 characters of question and unit. -/
theorem report_line_no_truncation_cex :
    reportLine fstr0 (⟨longQ, "u", none, []⟩ : CorrResult Unit) =
      (longQ ++ " (" ++ "u" ++ ")") ++ "nan" ++ "\n" ∧
    (longQ ++ " (" ++ "u" ++ ")").length = 214 ∧
    (pyFormatPadLeft 200 '_' (longQ ++ " (" ++ "u" ++ ")")).length = 214 := by
  refine ⟨?_, by rfl, by rfl⟩
  show pyFormatPadLeft 200 '_' (longQ ++ " (" ++ "u" ++ ")") ++
      coefText fstr0 none ++ "\n" = _
  rfl

/-- C6 amended: for every float renderer, a report line is the question and
unit left-justified in the 200-wide `_`-padded field — padded to exactly
width 200 when shorter, and left untruncated when longer — followed
immediately by the coefficient text and a newline, where an undefined
coefficient prints as the literal `"nan"` and a computed coefficient is
written unrounded through `str` (the `type(entry[2]) == float` test is
false for the `numpy.float64` that `Series.corr` returns, so the
round-to-3-decimals branch never applies to it). -/
theorem report_line_format {G : Type} (fstr : ℝ → String) (r : CorrResult G) :
    ((r.question ++ " (" ++ r.units ++ ")").length < 200 →
      reportLine fstr r = (r.question ++ " (" ++ r.units ++ ")") ++
        String.mk (List.replicate
          (200 - (r.question ++ " (" ++ r.units ++ ")").length) '_') ++
        coefText fstr r.coef ++ "\n" ∧
      (pyFormatPadLeft 200 '_' (r.question ++ " (" ++ r.units ++ ")")).length = 200) ∧
    (200 ≤ (r.question ++ " (" ++ r.units ++ ")").length →
      reportLine fstr r = (r.question ++ " (" ++ r.units ++ ")") ++
        coefText fstr r.coef ++ "\n") ∧
    (r.coef = none → coefText fstr r.coef = "nan") ∧
    (∀ x : ℝ, r.coef = some x → coefText fstr r.coef = fstr x) := by
  refine ⟨?_, ?_, ?_, ?_⟩
  · intro hlen
    constructor
    · unfold reportLine pyFormatPadLeft
      rw [if_pos hlen]
    · unfold pyFormatPadLeft
      rw [if_pos hlen]
      rw [String.length_append]
      simp only [String.length] at hlen ⊢
      rw [List.length_replicate]
      omega
  · intro hlen
    unfold reportLine pyFormatPadLeft
    rw [if_neg (by omega)]
  · intro hc
    rw [hc]
    rfl
  · intro x hc
    rw [hc]
    rfl

/-- C6 witness: a short question and unit give a field of exactly width 200;
the `NaN` coefficient prints as `"nan"`, and a defined coefficient is
rendered by the `str` renderer, not rounded. -/
theorem report_line_format_witness :
    (("Q6" ++ " (" ++ "unit" ++ ")").length < 200) ∧
    reportLine fstr0 (⟨"Q6", "unit", none, []⟩ : CorrResult Unit) =
      ("Q6" ++ " (" ++ "unit" ++ ")") ++
        String.mk (List.replicate
          (200 - ("Q6" ++ " (" ++ "unit" ++ ")").length) '_') ++
        coefText fstr0 (none : Option ℝ) ++ "\n" ∧
    (pyFormatPadLeft 200 '_' ("Q6" ++ " (" ++ "unit" ++ ")")).length = 200 ∧
    coefText fstr0 (none : Option ℝ) = "nan" ∧
    coefText fstr0 (some (1 / 5 : ℝ)) = fstr0 (1 / 5 : ℝ) := by
  have h := report_line_format fstr0 (⟨"Q6", "unit", none, []⟩ : CorrResult Unit)
  have h2 := report_line_format fstr0 (⟨"Q7", "unit", some (1 / 5 : ℝ), []⟩ : CorrResult Unit)
  have hlen : (("Q6" ++ " (" ++ "unit" ++ ")").length < 200) := by decide
  exact ⟨hlen, (h.1 hlen).1, (h.1 hlen).2, h.2.2.1 rfl, h2.2.2.2 (1 / 5 : ℝ) rfl⟩

end CDC
